import Mathlib

/-!
Verification of the experimentkit configuration / run-tracking CLI.

The development shallowly embeds the code of
`src/experimentkit/core/config.py`, `src/experimentkit/cli.py` and
`src/experimentkit/core/reporting.py`.  Python dicts are modelled as
insertion-ordered association lists, Python exceptions as an `Except`
error type, and the calls into external libraries (PyYAML scalar
resolution, `hashlib.sha256`, the file system, `copy.deepcopy`) are
modelled faithfully from those libraries' documented behaviour where a
claim depends on it.
-/

namespace ExperimentKit

/-- The JSON/YAML-like value universe of a config mapping: scalars,
sequences and (insertion-ordered) string-keyed mappings.  A Python
float is identified by its shortest round-trip decimal literal (the
text `repr(f)` produces, which is also what `json.dumps` emits); no
claim verified here depends on float identity or arithmetic. -/
inductive Value where
  | null : Value
  | bool (b : Bool) : Value
  | int (n : Int) : Value
  | float (lit : String) : Value
  | str (s : String) : Value
  | arr (xs : List Value) : Value
  | map (kvs : List (String × Value)) : Value

/-- A Python dict with string keys, as an insertion-ordered association
list (a dict built by normal Python code never has duplicate keys). -/
abbrev Dict := List (String × Value)

/-- Python exceptions raised by the embedded code. -/
inductive PyErr where
  | valueError (msg : String) : PyErr
  | typeError (msg : String) : PyErr
  | fileNotFoundError (msg : String) : PyErr
  | fileExistsError (msg : String) : PyErr
  | indexError : PyErr

/-- Python `d[k]` / `k in d` lookup: the (unique) binding of `k`. -/
def lookup (d : Dict) (k : String) : Option Value :=
  match d with
  | [] => none
  | (k', v) :: rest => if k' = k then some v else lookup rest k

/-- Python `d[k] = v`: replace the binding in place if `k` is present
(keeping its position), otherwise append a new binding at the end. -/
def setKey (d : Dict) (k : String) (v : Value) : Dict :=
  match d with
  | [] => [(k, v)]
  | (k', v') :: rest => if k' = k then (k', v) :: rest else (k', v') :: setKey rest k v

/-! ## Python `str.strip` and `str.split` -/

/-- ASCII whitespace stripped by Python `str.strip()` (the claims only
exercise ASCII input; Python additionally strips other Unicode
whitespace). -/
def isPySpace (c : Char) : Bool :=
  c = ' ' || c = '\t' || c = '\n' || c = '\x0d' || c = '\x0b' || c = '\x0c'

/-- Python `s.strip()`. -/
def pyStrip (s : String) : String :=
  ⟨((s.data.dropWhile isPySpace).reverse.dropWhile isPySpace).reverse⟩

/-- Python `str.lower` (ASCII; every string lowered by this code is an
ASCII file extension). -/
def pyLower (s : String) : String :=
  ⟨s.data.map (fun c =>
    if 'A' ≤ c && c ≤ 'Z' then Char.ofNat (c.toNat + 32) else c)⟩

/-- Split a character list at every occurrence of `sep` (Python
`str.split` with a single-character separator and no limit). -/
def splitOnChar (sep : Char) (cs : List Char) : List (List Char) :=
  match cs with
  | [] => [[]]
  | c :: rest =>
    let parts := splitOnChar sep rest
    if c = sep then [] :: parts
    else
      match parts with
      | [] => [[c]]
      | p :: ps => (c :: p) :: ps

/-- Python `s.split("=", 1)`: split at the first `=`; `none` when no
`=` occurs in `s`. -/
def splitFirstEq (s : String) : Option (String × String) :=
  match s.data.span (fun c => !(c = '=')) with
  | (_, []) => none
  | (pre, _ :: post) => some (⟨pre⟩, ⟨post⟩)

/-- Python `key.split(".")` (structural; agrees with `String.splitOn`
for the non-empty separator `"."`). -/
def splitDots (s : String) : List String :=
  (splitOnChar '.' s.data).map (fun cs => ⟨cs⟩)

/-! ## PyYAML implicit scalar resolution

`parse_override` calls `yaml.safe_load` on the trimmed value text.  For
a document consisting of a single plain scalar (the only shape the
claims exercise) `safe_load` reduces to PyYAML's implicit tag
resolution followed by scalar construction.  The matchers below embed
the resolver regular expressions of PyYAML (`yaml/resolver.py`) for the
null, bool, int and float tags; the remaining resolvable tags
(timestamp, merge, value) are not exercised by any claim and such
scalars resolve to strings here. -/

/-- PyYAML null tag: `^(?:~|null|Null|NULL|)$`. -/
def isNullScalar (s : String) : Bool :=
  s = "~" || s = "null" || s = "Null" || s = "NULL" || s = ""

/-- PyYAML bool tag, true words. -/
def isTrueScalar (s : String) : Bool :=
  s = "yes" || s = "Yes" || s = "YES" || s = "true" || s = "True" || s = "TRUE" ||
  s = "on" || s = "On" || s = "ON"

/-- PyYAML bool tag, false words. -/
def isFalseScalar (s : String) : Bool :=
  s = "no" || s = "No" || s = "NO" || s = "false" || s = "False" || s = "FALSE" ||
  s = "off" || s = "Off" || s = "OFF"

/-- Strip one leading `+`/`-` sign. -/
def dropSign (cs : List Char) : List Char :=
  match cs with
  | '-' :: rest => rest
  | '+' :: rest => rest
  | _ => cs

def isBinDigitU (c : Char) : Bool := c = '0' || c = '1' || c = '_'

def isOctDigitU (c : Char) : Bool := ('0' ≤ c && c ≤ '7') || c = '_'

def isDecDigitU (c : Char) : Bool := c.isDigit || c = '_'

def isHexDigitU (c : Char) : Bool :=
  c.isDigit || ('a' ≤ c && c ≤ 'f') || ('A' ≤ c && c ≤ 'F') || c = '_'

/-- `[0-5]?[0-9]`, one sexagesimal group after a `:`. -/
def isSexaGroup (cs : List Char) : Bool :=
  match cs with
  | [c] => c.isDigit
  | [c1, c2] => ('0' ≤ c1 && c1 ≤ '5') && c2.isDigit
  | _ => false

/-- `(?::[0-5]?[0-9])+` after the leading digit run: `groups` are the
`:`-separated groups after the first. -/
def sexaTail (groups : List (List Char)) : Bool :=
  match groups with
  | [] => false
  | gs => gs.all isSexaGroup

/-- `0|[1-9][0-9_]*`, the decimal alternative of the int tag. -/
def isDecBody (cs : List Char) : Bool :=
  match cs with
  | ['0'] => true
  | c :: rest => ('1' ≤ c && c ≤ '9') && rest.all isDecDigitU
  | [] => false

/-- PyYAML int tag:
`^(?:[-+]?0b[0-1_]+|[-+]?0[0-7_]+|[-+]?(?:0|[1-9][0-9_]*)|[-+]?0x[0-9a-fA-F_]+|[-+]?[1-9][0-9_]*(?::[0-5]?[0-9])+)$`. -/
def isIntScalar (s : String) : Bool :=
  let body := dropSign s.data
  (match body with
   | '0' :: 'b' :: ds => !ds.isEmpty && ds.all isBinDigitU
   | '0' :: 'x' :: ds => !ds.isEmpty && ds.all isHexDigitU
   | _ => false) ||
  (match body with
   | '0' :: ds => !ds.isEmpty && ds.all isOctDigitU
   | _ => false) ||
  isDecBody body ||
  (match splitOnChar ':' body with
   | g0 :: g1 :: gs =>
     (match g0 with
      | c :: rest => ('1' ≤ c && c ≤ '9') && rest.all isDecDigitU
      | [] => false) && sexaTail (g1 :: gs)
   | _ => false)

/-- `[eE][-+][0-9]+`: a YAML 1.1 float exponent (the sign is
mandatory in PyYAML's resolver). -/
def isExpPart (cs : List Char) : Bool :=
  match cs with
  | e :: sgn :: ds =>
    (e = 'e' || e = 'E') && (sgn = '+' || sgn = '-') && !ds.isEmpty && ds.all Char.isDigit
  | _ => false

/-- `[0-9][0-9_]*\.[0-9_]*(?:[eE][-+][0-9]+)?` after the optional sign:
digit run, a mandatory dot, fraction run, optional exponent. -/
def isDottedFloatBody (cs : List Char) : Bool :=
  match cs.span isDecDigitU with
  | (intPart, '.' :: rest) =>
    (match intPart with
     | c :: _ => c.isDigit
     | [] => false) && intPart.all isDecDigitU &&
    (let (frac, expPart) := rest.span isDecDigitU
     frac.all isDecDigitU && (expPart.isEmpty || isExpPart expPart))
  | _ => false

/-- `\.[0-9][0-9_]*(?:[eE][-+][0-9]+)?` (no sign allowed in PyYAML's
second float alternative). -/
def isLeadingDotFloat (cs : List Char) : Bool :=
  match cs with
  | '.' :: d :: rest =>
    d.isDigit &&
    (let (frac, expPart) := rest.span isDecDigitU
     frac.all isDecDigitU && (expPart.isEmpty || isExpPart expPart))
  | _ => false

/-- `[-+]?[0-9][0-9_]*(?::[0-5]?[0-9])+\.[0-9_]*`, sexagesimal float. -/
def isSexaFloat (cs : List Char) : Bool :=
  match cs.span (fun c => !(c = '.')) with
  | (intPart, '.' :: frac) =>
    frac.all isDecDigitU &&
    (match splitOnChar ':' intPart with
     | g0 :: g1 :: gs =>
       (match g0 with
        | c :: rest => c.isDigit && rest.all isDecDigitU
        | [] => false) && sexaTail (g1 :: gs)
     | _ => false)
  | _ => false

/-- PyYAML float tag, all five alternatives.  Note that every finite
alternative requires a literal dot: `1e-3` does not match. -/
def isFloatScalar (s : String) : Bool :=
  let body := dropSign s.data
  isDottedFloatBody body ||
  (isLeadingDotFloat s.data) ||
  isSexaFloat body ||
  (body = ['.', 'i', 'n', 'f'] || body = ['.', 'I', 'n', 'f'] || body = ['.', 'I', 'N', 'F']) ||
  (s.data = ['.', 'n', 'a', 'n'] || s.data = ['.', 'N', 'a', 'N'] || s.data = ['.', 'N', 'A', 'N'])

/-- Numeric value of one digit character (decimal or hex). -/
def digitVal (c : Char) : Nat :=
  if c.isDigit then c.toNat - '0'.toNat
  else if 'a' ≤ c && c ≤ 'f' then 10 + c.toNat - 'a'.toNat
  else if 'A' ≤ c && c ≤ 'F' then 10 + c.toNat - 'A'.toNat
  else 0

/-- Digits-with-underscores to a natural number in the given base. -/
def digitsVal (base : Nat) (ds : List Char) : Nat :=
  ds.foldl (fun acc c => if c = '_' then acc else acc * base + digitVal c) 0

/-- PyYAML `construct_yaml_int`: sign, then base dispatch on the
`0b`/`0x`/leading-`0` prefix or a sexagesimal `:` form. -/
def yamlIntValue (s : String) : Int :=
  let (sgn, body) : Int × List Char :=
    match s.data with
    | '-' :: rest => (-1, rest)
    | '+' :: rest => (1, rest)
    | rest => (1, rest)
  let mag : Nat :=
    match body with
    | '0' :: 'b' :: ds => digitsVal 2 ds
    | '0' :: 'x' :: ds => digitsVal 16 ds
    | ds =>
      if ds.contains ':' then
        (splitOnChar ':' ds).foldl (fun acc g => acc * 60 + digitsVal 10 g) 0
      else
        match ds with
        | '0' :: ds' => if ds'.isEmpty then 0 else digitsVal 8 ds'
        | _ => digitsVal 10 ds
  sgn * (mag : Int)

/-- Implicit resolution plus construction of a plain scalar, as
performed by `yaml.safe_load` on a single-scalar document.  The tag
regexes are mutually exclusive, so checking them in this order agrees
with PyYAML's per-first-character resolver order.  A float keeps its
literal text (it denotes `float(text)`; no claim depends on the
value). -/
def resolveScalar (s : String) : Value :=
  if isNullScalar s then .null
  else if isTrueScalar s then .bool true
  else if isFalseScalar s then .bool false
  else if isIntScalar s then .int (yamlIntValue s)
  else if isFloatScalar s then .float s
  else .str s

/-! ## The override engine (`config.py`) -/

/-- `parse_override` from `core/config.py` lines 34-51: split on the
first `=`, strip both parts, reject an empty key, split the key on `.`
and resolve the value text with `yaml.safe_load`. -/
def parse_override (s : String) : Except PyErr (List String × Value) :=
  match splitFirstEq s with
  | none => .error (.valueError ("override must contain '=': " ++ s))
  | some (k0, raw0) =>
    let key := pyStrip k0
    let raw := pyStrip raw0
    if key = "" then .error (.valueError ("override key is empty: " ++ s))
    else .ok (splitDots key, resolveScalar raw)

/-- `set_by_path` from `core/config.py` lines 54-62, in state-passing
form: walk the segments before the last, creating an empty dict for a
missing segment and failing on a non-dict value, then assign at the
last segment.  Python's `keys[-1]` on an empty path would raise
`IndexError`. -/
def set_by_path (d : Dict) (keys : List String) (v : Value) : Except PyErr Dict :=
  match keys with
  | [] => .error .indexError
  | [k] => .ok (setKey d k v)
  | k :: k2 :: rest =>
    match lookup d k with
    | none =>
      match set_by_path [] (k2 :: rest) v with
      | .error e => .error e
      | .ok m' => .ok (setKey d k (.map m'))
    | some (.map m) =>
      match set_by_path m (k2 :: rest) v with
      | .error e => .error e
      | .ok m' => .ok (setKey d k (.map m'))
    | some _ => .error (.typeError ("override path hits non-dict at '" ++ k ++ "'"))

/-- `apply_overrides` from `core/config.py` lines 65-70: parse and
apply each override in list order against a working copy (the deep
copy is explicit in the heap model further below; on this functional
model the input is never changed by construction). -/
def apply_overrides (cfg : Dict) (overrides : List String) : Except PyErr Dict :=
  match overrides with
  | [] => .ok cfg
  | s :: rest =>
    match parse_override s with
    | .error e => .error e
    | .ok (keys, val) =>
      match set_by_path cfg keys val with
      | .error e => .error e
      | .ok cfg' => apply_overrides cfg' rest

/-- Reading back a dotted path (specification helper; not part of the
source). -/
def get_by_path (d : Dict) : List String → Option Value
  | [] => none
  | [k] => lookup d k
  | k :: k2 :: rest =>
    match lookup d k with
    | some (.map m) => get_by_path m (k2 :: rest)
    | _ => none

/-- Does the walk of `set_by_path` stay on mapping-or-absent values at
every segment before the last (specification helper)? -/
def pathOk (d : Dict) : List String → Bool
  | [] => true
  | [_] => true
  | k :: k2 :: rest =>
    match lookup d k with
    | none => pathOk [] (k2 :: rest)
    | some (.map m) => pathOk m (k2 :: rest)
    | some _ => false

/-! ## The config hasher (`config.py` lines 73-79)

`config_hash` serializes with
`json.dumps(cfg, sort_keys=True, separators=(",", ":"), ensure_ascii=False)`
and digests the UTF-8 bytes with `hashlib.sha256`.  `sort_keys=True`
sorts the items of every mapping by key during serialization; this is
factored below as `canon` (recursively sort every mapping by key; both
Python's `sorted` and `List.mergeSort` are stable and use the same
code-point-lexicographic key order, and a Python dict has no duplicate
keys, so the two factorings agree) followed by a plain serializer. -/

/-- Comparison used to sort mapping items: by key, code-point
lexicographically (Python `sorted` on `dict.items()` would compare
value tuples, but `json.dumps` sorts with `items = sorted(dct.items(),
key=lambda kv: kv[0])` semantics: equal keys never occur). -/
def keyLeB (p q : String × Value) : Bool := decide (p.1 ≤ q.1)

mutual

/-- Recursively sort every mapping's items by key. -/
def canon : Value → Value
  | .null => .null
  | .bool b => .bool b
  | .int n => .int n
  | .float lit => .float lit
  | .str s => .str s
  | .arr xs => .arr (canonL xs)
  | .map kvs => .map (List.mergeSort (canonP kvs) keyLeB)

def canonL : List Value → List Value
  | [] => []
  | x :: xs => canon x :: canonL xs

def canonP : List (String × Value) → List (String × Value)
  | [] => []
  | (k, v) :: tl => (k, canon v) :: canonP tl

end

/-- The sixteen lowercase hex digits, in value order. -/
def hexChars : List Char := "0123456789abcdef".data

/-- The lowercase hex digit of `n % 16`. -/
def hexDigit (n : Nat) : Char :=
  hexChars.get ⟨n % 16, by have h16 : hexChars.length = 16 := rfl; omega⟩

/-- One character of a JSON string literal under `ensure_ascii=False`:
Python's `json.encoder` escapes `"` and `\`, uses the two-character
escapes for the five control characters with short names, `\uXXXX` for
the remaining control characters, and passes everything else (ASCII
and non-ASCII alike) through. -/
def jsonEscapeChar (c : Char) : String :=
  if c = '"' then "\\\""
  else if c = '\\' then "\\\\"
  else if c = '\n' then "\\n"
  else if c = '\t' then "\\t"
  else if c = '\x0d' then "\\r"
  else if c = '\x08' then "\\b"
  else if c = '\x0c' then "\\f"
  else if c.toNat < 32 then
    "\\u00" ++ String.mk [hexDigit (c.toNat / 16), hexDigit c.toNat]
  else String.mk [c]

/-- A JSON string literal. -/
def jsonQuote (s : String) : String :=
  "\"" ++ String.join (s.data.map jsonEscapeChar) ++ "\""

mutual

/-- Plain JSON serialization with separators `(",", ":")` (minimal
whitespace); applied after `canon` this is exactly
`json.dumps(cfg, sort_keys=True, separators=(",", ":"),
ensure_ascii=False)`.  A float serializes as its (shortest round-trip)
literal, which is what `repr(float)` hands to `json.dumps`. -/
def dumpV : Value → String
  | .null => "null"
  | .bool true => "true"
  | .bool false => "false"
  | .int n => toString n
  | .float lit => lit
  | .str s => jsonQuote s
  | .arr xs => "[" ++ dumpL xs ++ "]"
  | .map kvs => "\x7b" ++ dumpP kvs ++ "\x7d"

def dumpL : List Value → String
  | [] => ""
  | [x] => dumpV x
  | x :: y :: tl => dumpV x ++ "," ++ dumpL (y :: tl)

def dumpP : List (String × Value) → String
  | [] => ""
  | [(k, v)] => jsonQuote k ++ ":" ++ dumpV v
  | (k, v) :: p :: tl => jsonQuote k ++ ":" ++ dumpV v ++ "," ++ dumpP (p :: tl)

end

/-- UTF-8 encoding of one code point (RFC 3629), as byte values. -/
def utf8EncodeCharNat (c : Char) : List Nat :=
  let n := c.toNat
  if n < 128 then [n]
  else if n < 2048 then [192 + n / 64, 128 + n % 64]
  else if n < 65536 then [224 + n / 4096, 128 + n / 64 % 64, 128 + n % 64]
  else [240 + n / 262144, 128 + n / 4096 % 64, 128 + n / 64 % 64, 128 + n % 64]

/-- UTF-8 bytes of a string. -/
def utf8Bytes (s : String) : List Nat :=
  (s.data.map utf8EncodeCharNat).flatten

/-! ## SHA-256 (`hashlib.sha256(...).hexdigest()`), FIPS 180-4, over
byte lists, with 32-bit words as `Nat` reduced mod `2^32`. -/

def w32 (x : Nat) : Nat := x % 4294967296

def rotr32 (n x : Nat) : Nat := w32 ((x >>> n) ||| (x <<< (32 - n)))

def shr32 (n x : Nat) : Nat := x >>> n

def xor3 (a b c : Nat) : Nat := (a ^^^ b) ^^^ c

def bigSigma0 (x : Nat) : Nat := xor3 (rotr32 2 x) (rotr32 13 x) (rotr32 22 x)

def bigSigma1 (x : Nat) : Nat := xor3 (rotr32 6 x) (rotr32 11 x) (rotr32 25 x)

def smallSigma0 (x : Nat) : Nat := xor3 (rotr32 7 x) (rotr32 18 x) (shr32 3 x)

def smallSigma1 (x : Nat) : Nat := xor3 (rotr32 17 x) (rotr32 19 x) (shr32 10 x)

def chFn (x y z : Nat) : Nat := (x &&& y) ^^^ ((w32 (4294967295 - x)) &&& z)

def majFn (x y z : Nat) : Nat := xor3 (x &&& y) (x &&& z) (y &&& z)

/-- The 64 round constants of FIPS 180-4 (the fractional parts of the
cube roots of the first 64 primes), in decimal. -/
def sha256K : List Nat :=
  [1116352408, 1899447441, 3049323471, 3921009573, 961987163, 1508970993,
   2453635748, 2870763221, 3624381080, 310598401, 607225278, 1426881987,
   1925078388, 2162078206, 2614888103, 3248222580, 3835390401, 4022224774,
   264347078, 604807628, 770255983, 1249150122, 1555081692, 1996064986,
   2554220882, 2821834349, 2952996808, 3210313671, 3336571891, 3584528711,
   113926993, 338241895, 666307205, 773529912, 1294757372, 1396182291,
   1695183700, 1986661051, 2177026350, 2456956037, 2730485921, 2820302411,
   3259730800, 3345764771, 3516065817, 3600352804, 4094571909, 275423344,
   430227734, 506948616, 659060556, 883997877, 958139571, 1322822218,
   1537002063, 1747873779, 1955562222, 2024104815, 2227730452, 2361852424,
   2428436474, 2756734187, 3204031479, 3329325298]

/-- Big-endian 8-byte encoding of the bit length. -/
def be64 (n : Nat) : List Nat :=
  [n >>> 56 % 256, n >>> 48 % 256, n >>> 40 % 256, n >>> 32 % 256,
   n >>> 24 % 256, n >>> 16 % 256, n >>> 8 % 256, n % 256]

/-- Merkle–Damgård padding: `0x80`, zeros to 56 mod 64, 64-bit length. -/
def padMsg (m : List Nat) : List Nat :=
  let L := m.length
  m ++ [128] ++ List.replicate ((119 - L % 64) % 64) 0 ++ be64 (8 * L)

/-- Split the padded message into 64-byte blocks (structurally, on a
step counter that the list length bounds: every step consumes at
least one byte). -/
def toBlocksAux : Nat → List Nat → List (List Nat)
  | 0, _ => []
  | _, [] => []
  | n + 1, b :: rest => ((b :: rest).take 64) :: toBlocksAux n ((b :: rest).drop 64)

def toBlocks (l : List Nat) : List (List Nat) := toBlocksAux l.length l

/-- Bytes to big-endian 32-bit words. -/
def bytesToWords : List Nat → List Nat
  | b0 :: b1 :: b2 :: b3 :: rest => (b0 * 16777216 + b1 * 65536 + b2 * 256 + b3) :: bytesToWords rest
  | _ => []

/-- Extend a 16-word block by `n` scheduled words. -/
def extendWords (ws : List Nat) : Nat → List Nat
  | 0 => ws
  | n + 1 =>
    let prev := extendWords ws n
    let L := prev.length
    prev ++ [w32 (smallSigma1 (prev.getD (L - 2) 0) + prev.getD (L - 7) 0 +
                  smallSigma0 (prev.getD (L - 15) 0) + prev.getD (L - 16) 0)]

/-- The running hash state. -/
structure Sha256State where
  a : Nat
  b : Nat
  c : Nat
  d : Nat
  e : Nat
  f : Nat
  g : Nat
  h : Nat

def sha256Init : Sha256State :=
  ⟨1779033703, 3144134277, 1013904242, 2773480762,
   1359893119, 2600822924, 528734635, 1541459225⟩

/-- One compression round with schedule word `w` and constant `k`. -/
def sha256Round (st : Sha256State) (wk : Nat × Nat) : Sha256State :=
  let t1 := w32 (st.h + bigSigma1 st.e + chFn st.e st.f st.g + wk.2 + wk.1)
  let t2 := w32 (bigSigma0 st.a + majFn st.a st.b st.c)
  ⟨w32 (t1 + t2), st.a, st.b, st.c, w32 (st.d + t1), st.e, st.f, st.g⟩

/-- Compress one 64-byte block into the state. -/
def sha256Block (st : Sha256State) (block : List Nat) : Sha256State :=
  let ws := extendWords (bytesToWords block) 48
  let r := (ws.zip sha256K).foldl sha256Round st
  ⟨w32 (st.a + r.a), w32 (st.b + r.b), w32 (st.c + r.c), w32 (st.d + r.d),
   w32 (st.e + r.e), w32 (st.f + r.f), w32 (st.g + r.g), w32 (st.h + r.h)⟩

/-- SHA-256 of a byte list: the eight 32-bit words of the digest. -/
def sha256Words (m : List Nat) : Sha256State :=
  (toBlocks (padMsg m)).foldl sha256Block sha256Init

/-- Eight lowercase hex digits of a 32-bit word, most significant
first. -/
def hex8 (w : Nat) : List Char :=
  [hexDigit (w / 268435456), hexDigit (w / 16777216), hexDigit (w / 1048576),
   hexDigit (w / 65536), hexDigit (w / 4096), hexDigit (w / 256),
   hexDigit (w / 16), hexDigit w]

/-- `hashlib.sha256(bytes).hexdigest()`. -/
def sha256Hex (m : List Nat) : String :=
  let d := sha256Words m
  ⟨hex8 d.a ++ hex8 d.b ++ hex8 d.c ++ hex8 d.d ++ hex8 d.e ++ hex8 d.f ++ hex8 d.g ++ hex8 d.h⟩

/-- `config_hash` from `core/config.py` lines 73-79. -/
def config_hash (cfg : Dict) : String :=
  sha256Hex (utf8Bytes (dumpV (canon (.map cfg))))

/-! ## Content equality of configs up to key insertion order -/

mutual

/-- `SameV v w`: `v` and `w` have identical key/value content; mapping
items may appear in a different insertion order at every nesting
level, sequences keep their order. -/
inductive SameV : Value → Value → Prop where
  | null : SameV .null .null
  | bool (b : Bool) : SameV (.bool b) (.bool b)
  | int (n : Int) : SameV (.int n) (.int n)
  | float (lit : String) : SameV (.float lit) (.float lit)
  | str (s : String) : SameV (.str s) (.str s)
  | arr {xs ys : List Value} : SameL xs ys → SameV (.arr xs) (.arr ys)
  | map {l l' m : List (String × Value)} :
      l.Perm l' → SameP l' m → SameV (.map l) (.map m)

/-- Pointwise `SameV` on sequences. -/
inductive SameL : List Value → List Value → Prop where
  | nil : SameL [] []
  | cons {x y : Value} {xs ys : List Value} :
      SameV x y → SameL xs ys → SameL (x :: xs) (y :: ys)

/-- Pointwise equal keys with `SameV` values on mapping items. -/
inductive SameP : List (String × Value) → List (String × Value) → Prop where
  | nil : SameP [] []
  | cons {k : String} {v w : Value} {l m : List (String × Value)} :
      SameV v w → SameP l m → SameP ((k, v) :: l) ((k, w) :: m)

end

/-- No key occurs twice among mapping items. -/
def keysDistinct : List (String × Value) → Bool
  | [] => true
  | (k, _) :: rest => !(rest.any (fun p => decide (p.1 = k))) && keysDistinct rest

mutual

/-- Every mapping at every nesting level has pairwise-distinct keys
(true of every value produced by Python dicts). -/
def ndV : Value → Bool
  | .null => true
  | .bool _ => true
  | .int _ => true
  | .float _ => true
  | .str _ => true
  | .arr xs => ndL xs
  | .map kvs => keysDistinct kvs && ndP kvs

def ndL : List Value → Bool
  | [] => true
  | x :: xs => ndV x && ndL xs

def ndP : List (String × Value) → Bool
  | [] => true
  | (_, v) :: tl => ndV v && ndP tl

end

/-! ## The config loader (`config.py` lines 12-31)

The call into the external parser (`yaml.safe_load` / `json.loads`) is
abstracted: its output document is a parameter.  `Value.null` models
Python `None`, which is what `yaml.safe_load` returns for an empty
document. -/

/-- `load_config`: existence check, extension dispatch on the
lower-cased suffix, `None -> {}` defaulting, root-mapping check. -/
def load_config (pathExists : Bool) (suffix : String) (doc : Value) : Except PyErr Dict :=
  if !pathExists then .error (.fileNotFoundError "config not found")
  else
    let sl := pyLower suffix
    if sl = ".yaml" || sl = ".yml" || sl = ".json" then
      match doc with
      | .null => .ok []
      | .map kvs => .ok kvs
      | _ => .error (.typeError "config root must be a mapping/dict")
    else .error (.valueError "config must be .yaml/.yml/.json")

/-! ## Run directory creation (`cli.py` lines 92-95)

A minimal file-system state: the set of existing directories and the
existing files with their contents.  `mkdirP` models
`Path.mkdir(parents=True, exist_ok=False)` (POSIX `mkdir` semantics:
with `exist_ok=False` an existing target raises `FileExistsError` and
nothing on disk changes). -/

abbrev FPath := List String

structure FS where
  dirs : List FPath
  files : List (FPath × String)

/-- All non-empty prefixes of a path (the chain of parents). -/
def prefixesOf : FPath → List FPath
  | [] => []
  | seg :: rest => [seg] :: (prefixesOf rest).map (fun p => seg :: p)

/-- `Path.mkdir(parents=True, exist_ok=False)`: returns the raised
exception (if any) together with the file system after the call. -/
def mkdirP (fs : FS) (p : FPath) : Except PyErr Unit × FS :=
  if p ∈ fs.dirs then (.error (.fileExistsError "File exists"), fs)
  else (.ok (), { fs with dirs := fs.dirs ++ (prefixesOf p).filter (fun q => !fs.dirs.contains q) })

/-- `cli.py` lines 93-95: `run_dir = Path.cwd() / "runs" / run_id;
run_dir.mkdir(parents=True, exist_ok=False)`. -/
def createRunDir (fs : FS) (cwd : FPath) (run_id : String) : Except PyErr Unit × FS :=
  mkdirP fs (cwd ++ ["runs", run_id])

/-! ## Report assembly (`reporting.py`)

The file-system reads performed by `generate_report` are abstracted as
one record: whether the run directory exists, the parsed `meta.json`
if present, the text of `config_final.yaml` if present, the parsed
`metrics.json` if present, and the `plots/` directory listing (entry
name and whether it is a regular file) if that directory exists. -/

structure RunDirFS where
  runDirExists : Bool
  meta : Option Dict
  configText : Option String
  metrics : Option Dict
  plots : Option (List (String × Bool))

/-- `pathlib.PurePath.suffix` of a file name: the part from the last
dot on, empty when the dot is absent, leading or trailing. -/
def pySuffix (name : String) : String :=
  let cs := name.data
  match (cs.reverse.takeWhile (fun c => !(c = '.'))).reverse with
  | ext =>
    if ext.length = cs.length then ""
    else if ext.length = 0 then ""
    else if cs.length - ext.length - 1 = 0 then ""
    else ⟨'.' :: ext⟩

/-- `copy_plot_assets` (`reporting.py` lines 46-62): returns the
copied names and whether the assets directory was created.  When the
plots directory is missing it returns `[]` before creating anything;
otherwise it creates the assets directory and copies every regular
file with a recognized image suffix, iterating in sorted order. -/
def copy_plot_assets (plots : Option (List (String × Bool))) : List String × Bool :=
  match plots with
  | none => ([], false)
  | some entries =>
    let sorted := entries.mergeSort (fun a b => decide (a.1 ≤ b.1))
    let copied := (sorted.filter (fun e =>
      e.2 && (let sfx := pyLower (pySuffix e.1)
              sfx = ".png" || sfx = ".jpg" || sfx = ".jpeg"))).map (fun e => e.1)
    (copied, true)

/-- `_md_escape`: `s.replace("|", "\\|").replace("\n", " ")` (the two
replacements do not interact, so one pass per character is exact). -/
def mdEscape (s : String) : String :=
  ⟨(s.data.map (fun c =>
      if c = '|' then ['\\', '|'] else if c = '\n' then [' '] else [c])).flatten⟩

mutual

/-- Python `repr` of a config value as it appears inside a container
(`str` of a list/dict reprs the elements). -/
def pyReprV : Value → String
  | .null => "None"
  | .bool true => "True"
  | .bool false => "False"
  | .int n => toString n
  | .float lit => lit
  | .str s => "'" ++ s ++ "'"
  | .arr xs => "[" ++ pyReprL xs ++ "]"
  | .map kvs => "\x7b" ++ pyReprP kvs ++ "\x7d"

def pyReprL : List Value → String
  | [] => ""
  | [x] => pyReprV x
  | x :: y :: tl => pyReprV x ++ ", " ++ pyReprL (y :: tl)

def pyReprP : List (String × Value) → String
  | [] => ""
  | [(k, v)] => "'" ++ k ++ "': " ++ pyReprV v
  | (k, v) :: p :: tl => "'" ++ k ++ "': " ++ pyReprV v ++ ", " ++ pyReprP (p :: tl)

end

/-- Python `str(v)` for a value in a table cell. -/
def pyStr : Value → String
  | .str s => s
  | v => pyReprV v

/-- `_as_str`: empty for `None`, `str(v)` otherwise. -/
def asStr : Value → String
  | .null => ""
  | v => pyStr v

/-- `_render_kv_table`. -/
def renderKvTable (rows : List (String × Value)) : List String :=
  ["| Field | Value |", "|---|---|"] ++
  rows.map (fun r => "| " ++ r.1 ++ " | " ++ mdEscape (asStr r.2) ++ " |")

/-- Is a metrics value a scalar in the sense of
`isinstance(v, (int, float, str, bool)) or v is None`? -/
def isScalar : Value → Bool
  | .arr _ => false
  | .map _ => false
  | _ => true

/-- `_render_metrics_table`: scalar items sorted by key. -/
def renderMetricsTable (metrics : Dict) : List String :=
  renderKvTable ((metrics.filter (fun kv => isScalar kv.2)).mergeSort
    (fun a b => decide (a.1 ≤ b.1)))

/-- `meta.get(k)` for the summary table: `None` when missing. -/
def metaGet (meta : Dict) (k : String) : Value :=
  (lookup meta k).getD .null

/-- The fixed summary key list of `generate_report`. -/
def summaryRows (meta : Dict) : List (String × Value) :=
  [("run_id", metaGet meta "run_id"), ("created_at", metaGet meta "created_at"),
   ("cwd", metaGet meta "cwd"), ("command", metaGet meta "command"),
   ("seed", metaGet meta "seed"), ("config_path", metaGet meta "config_path"),
   ("config_hash", metaGet meta "config_hash"), ("deps_hash", metaGet meta "deps_hash"),
   ("git_commit", metaGet meta "git_commit"), ("git_dirty", metaGet meta "git_dirty"),
   ("duration_sec", metaGet meta "duration_sec"), ("platform", metaGet meta "platform"),
   ("python_version", metaGet meta "python_version")]

/-- Python `s.rstrip()`. -/
def pyRStrip (s : String) : String :=
  ⟨(s.data.reverse.dropWhile isPySpace).reverse⟩

/-- The recorded command, after `meta.get("command") or ""`; a
non-string truthy command is not exercised (Python would fail later at
`"\n".join`). -/
def metaCommand (meta : Dict) : String :=
  match lookup meta "command" with
  | some (.str s) => s
  | _ => ""

/-- The Markdown line list assembled by `generate_report`
(`reporting.py` lines 99-158); the report file is these lines joined
with newlines. -/
def mdLines (runId : String) (meta : Dict) (configText : String) (metrics : Dict)
    (copied : List String) : List String :=
  ["# Experiment Report — " ++ runId ++ "\n",
   "## Summary"] ++ [String.intercalate "\n" (renderKvTable (summaryRows meta))] ++ [""] ++
  ["## Metrics"] ++
  (if metrics.isEmpty then
    ["_metrics.json not found (this run may have failed or metrics were not generated)._"]
   else [String.intercalate "\n" (renderMetricsTable metrics)]) ++ [""] ++
  ["## Plots"] ++
  (if copied.isEmpty then ["_No plot assets found._", ""]
   else (copied.map (fun name =>
     ["### " ++ name, "![" ++ name ++ "](assets/" ++ name ++ ")", ""])).flatten) ++
  ["## Final Config Snapshot"] ++
  (if pyStrip configText = "" then ["_config_final.yaml not found._"]
   else ["```yaml", pyRStrip configText, "```"]) ++ [""] ++
  ["## Reproduce"] ++
  (if metaCommand meta = "" then ["_No command recorded._"]
   else ["```bash", metaCommand meta, "```"]) ++ [""]

/-- What `generate_report` produces on success. -/
structure ReportOut where
  lines : List String
  copied : List String
  assetsDirCreated : Bool

/-- `generate_report` (`reporting.py` lines 65-162): existence checks
for the run directory and `meta.json`, tolerant reads of the optional
artifacts, asset copying, Markdown assembly. -/
def generate_report (rd : RunDirFS) (runDirName : String) : Except PyErr ReportOut :=
  if !rd.runDirExists then .error (.fileNotFoundError "run_dir not found")
  else
    match rd.meta with
    | none => .error (.fileNotFoundError "meta.json not found")
    | some meta =>
      let configText := rd.configText.getD ""
      let metrics := rd.metrics.getD []
      let (copied, created) := copy_plot_assets rd.plots
      .ok ⟨mdLines runDirName meta configText metrics copied, copied, created⟩

/-! ## The run command's config pipeline (`cli.py` lines 74-150)

The pure heart of `cmd_run`: seed injection (step 2), override
application, the config hash (step 5) and the `seed` field of the
`RunMeta` record (step 8).  File writes, logging and provenance
collection are external effects that do not feed back into these
values. -/

structure RunCoreOut where
  final_cfg : Dict
  chash : String
  metaSeed : Option Int

/-- Steps 2, 5 and 8 of `cmd_run`: `cfg["seed"] = int(args.seed)` when
`--seed` is given, then `final_cfg = apply_overrides(cfg, overrides)`,
`chash = config_hash(final_cfg)`, and `RunMeta(seed=args.seed, ...)`. -/
def cmd_run_core (cfg0 : Dict) (seed : Option Int) (overrides : List String) :
    Except PyErr RunCoreOut :=
  let cfg := match seed with
    | some s => setKey cfg0 "seed" (.int s)
    | none => cfg0
  match apply_overrides cfg overrides with
  | .error e => .error e
  | .ok final => .ok ⟨final, config_hash final, seed⟩

/-! ## Heap model of the override engine (for the frame property)

In Python, `set_by_path` mutates dict objects in place and
`apply_overrides` shields its argument with `copy.deepcopy`.  To state
that the argument is never mutated we model the mutable store
explicitly: the heap is a list of dict objects (only dicts are ever
mutated by this code); scalars and lists live inline, a nested dict is
a reference `href a` to heap cell `a`.  `copy.deepcopy` is modelled
with a recursion-depth fuel (it returns `none` only when the fuel is
smaller than the nesting depth; configs are finite trees, so a large
enough fuel always succeeds).  The memo table with which `deepcopy`
preserves aliasing inside the copy is not tracked — the copy allocates
a fresh cell per visited dict; both behaviours write only to fresh
cells, which is what the frame property is about. -/

inductive HVal where
  | null : HVal
  | hbool (b : Bool) : HVal
  | hint (n : Int) : HVal
  | hfloat (lit : String) : HVal
  | hstr (s : String) : HVal
  | harr (xs : List HVal) : HVal
  | href (a : Nat) : HVal

/-- A dict object on the heap. -/
abbrev HObj := List (String × HVal)

/-- The store: cell `a` is `h.get? a`. -/
abbrev Heap := List HObj

def hlookup (o : HObj) (k : String) : Option HVal :=
  match o with
  | [] => none
  | (k', v) :: rest => if k' = k then some v else hlookup rest k

def hsetKey (o : HObj) (k : String) (v : HVal) : HObj :=
  match o with
  | [] => [(k, v)]
  | (k', v') :: rest => if k' = k then (k', v) :: rest else (k', v') :: hsetKey rest k v

mutual

/-- Every reference inside the value satisfies `p`. -/
def refsOkV (p : Nat → Bool) : HVal → Bool
  | .harr xs => refsOkL p xs
  | .href a => p a
  | _ => true

def refsOkL (p : Nat → Bool) : List HVal → Bool
  | [] => true
  | x :: xs => refsOkV p x && refsOkL p xs

end

def refsOkObj (p : Nat → Bool) : HObj → Bool
  | [] => true
  | (_, v) :: tl => refsOkV p v && refsOkObj p tl

/-- Every reference anywhere in the heap points inside the heap. -/
def closedHeapB (h : Heap) : Bool :=
  h.all (refsOkObj (fun a => decide (a < h.length)))

/-- Every cell at address `n` or above only references addresses `n`
or above (the copy's object graph is disjoint from the original's). -/
def goodAbove (n : Nat) (h : Heap) : Prop :=
  ∀ i o, n ≤ i → h.get? i = some o → refsOkObj (fun a => decide (n ≤ a)) o = true

mutual

/-- Store a pure value into the heap, allocating a fresh cell for
every mapping (how an override's freshly parsed value enters the
object graph). -/
def storeV (h : Heap) : Value → Heap × HVal
  | .null => (h, .null)
  | .bool b => (h, .hbool b)
  | .int n => (h, .hint n)
  | .float lit => (h, .hfloat lit)
  | .str s => (h, .hstr s)
  | .arr xs => let r := storeL h xs; (r.1, .harr r.2)
  | .map kvs => let r := storeP h kvs; (r.1 ++ [r.2], .href r.1.length)

def storeL (h : Heap) : List Value → Heap × List HVal
  | [] => (h, [])
  | x :: xs =>
    let r := storeV h x
    let r' := storeL r.1 xs
    (r'.1, r.2 :: r'.2)

def storeP (h : Heap) : List (String × Value) → Heap × HObj
  | [] => (h, [])
  | (k, v) :: tl =>
    let r := storeV h v
    let r' := storeP r.1 tl
    (r'.1, (k, r.2) :: r'.2)

end

mutual

/-- `copy.deepcopy`, fuel-bounded (the fuel ticks down at every
recursive step, so any fuel at least the size of the copied structure
succeeds): a fresh cell per copied dict, recursive copies of list
elements and dict values. -/
def copyV : Nat → Heap → HVal → Option (Heap × HVal)
  | _, h, .null => some (h, .null)
  | _, h, .hbool b => some (h, .hbool b)
  | _, h, .hint n => some (h, .hint n)
  | _, h, .hfloat lit => some (h, .hfloat lit)
  | _, h, .hstr s => some (h, .hstr s)
  | 0, _, .harr _ => none
  | fuel + 1, h, .harr xs =>
    match copyL fuel h xs with
    | none => none
    | some r => some (r.1, .harr r.2)
  | 0, _, .href _ => none
  | fuel + 1, h, .href a =>
    match h.get? a with
    | none => none
    | some o =>
      match copyObj fuel h o with
      | none => none
      | some r => some (r.1 ++ [r.2], .href r.1.length)

def copyL : Nat → Heap → List HVal → Option (Heap × List HVal)
  | _, h, [] => some (h, [])
  | 0, _, _ :: _ => none
  | fuel + 1, h, x :: xs =>
    match copyV fuel h x with
    | none => none
    | some r =>
      match copyL fuel r.1 xs with
      | none => none
      | some r' => some (r'.1, r.2 :: r'.2)

def copyObj : Nat → Heap → HObj → Option (Heap × HObj)
  | _, h, [] => some (h, [])
  | 0, _, _ :: _ => none
  | fuel + 1, h, (k, v) :: tl =>
    match copyV fuel h v with
    | none => none
    | some r =>
      match copyObj fuel r.1 tl with
      | none => none
      | some r' => some (r'.1, (k, r.2) :: r'.2)

end

/-- `set_by_path` on the heap, rooted at dict cell `a`: walks and
mutates in place, allocating an empty dict for a missing intermediate
segment exactly as the Python loop does. -/
def setByPathH (h : Heap) (a : Nat) : List String → HVal → Except PyErr Heap
  | [], _ => .error .indexError
  | [k], v =>
    match h.get? a with
    | none => .error (.typeError "dangling reference")
    | some o => .ok (h.set a (hsetKey o k v))
  | k :: k2 :: rest, v =>
    match h.get? a with
    | none => .error (.typeError "dangling reference")
    | some o =>
      match hlookup o k with
      | some (.href b) => setByPathH h b (k2 :: rest) v
      | some _ => .error (.typeError ("override path hits non-dict at '" ++ k ++ "'"))
      | none =>
        let b := h.length
        let h' := (h ++ [([] : HObj)]).set a (hsetKey o k (.href b))
        setByPathH h' b (k2 :: rest) v

/-- The override loop of `apply_overrides`, acting on the copy rooted
at cell `b`. -/
def applyOvLoop (h : Heap) (b : Nat) : List String → Except PyErr Heap
  | [] => .ok h
  | s :: rest =>
    match parse_override s with
    | .error e => .error e
    | .ok (ks, v) =>
      let r := storeV h v
      match setByPathH r.1 b ks r.2 with
      | .error e => .error e
      | .ok h'' => applyOvLoop h'' b rest

/-- `apply_overrides` on the heap: `out = deepcopy(cfg)`, then the
loop; returns the final heap and the root cell of the result. -/
def apply_overrides_heap (h : Heap) (a : Nat) (ovs : List String) (fuel : Nat) :
    Except PyErr (Heap × Nat) :=
  match copyV fuel h (.href a) with
  | none => .error (.valueError "deepcopy fuel exhausted")
  | some (h1, .href b) =>
    match applyOvLoop h1 b ovs with
    | .error e => .error e
    | .ok h2 => .ok (h2, b)
  | some _ => .error (.valueError "unreachable: copy of a ref is a ref")

mutual

/-- Read a pure value back out of the heap (fuel-bounded, ticking at
every recursive step). -/
def readV (h : Heap) : Nat → HVal → Option Value
  | _, .null => some .null
  | _, .hbool b => some (.bool b)
  | _, .hint n => some (.int n)
  | _, .hfloat lit => some (.float lit)
  | _, .hstr s => some (.str s)
  | 0, .harr _ => none
  | fuel + 1, .harr xs =>
    match readL h fuel xs with
    | none => none
    | some ys => some (.arr ys)
  | 0, .href _ => none
  | fuel + 1, .href a =>
    match h.get? a with
    | none => none
    | some o =>
      match readObj h fuel o with
      | none => none
      | some kvs => some (.map kvs)

def readL (h : Heap) : Nat → List HVal → Option (List Value)
  | _, [] => some []
  | 0, _ :: _ => none
  | fuel + 1, x :: xs =>
    match readV h fuel x with
    | none => none
    | some y =>
      match readL h fuel xs with
      | none => none
      | some ys => some (y :: ys)

def readObj (h : Heap) : Nat → HObj → Option (List (String × Value))
  | _, [] => some []
  | 0, _ :: _ => none
  | fuel + 1, (k, v) :: tl =>
    match readV h fuel v with
    | none => none
    | some w =>
      match readObj h fuel tl with
      | none => none
      | some kvs => some ((k, w) :: kvs)

end

example : parse_override "trainer.lr=1e-3" = .ok (["trainer", "lr"], .str "1e-3") := rfl
example : parse_override "a=" = .ok (["a"], .null) := rfl
example : parse_override "a.b= 5 " = .ok (["a", "b"], .int 5) := rfl
example : parse_override "x=0.5" = .ok (["x"], .float "0.5") := rfl
example : parse_override "x=true" = .ok (["x"], .bool true) := rfl
example : parse_override "x=-12" = .ok (["x"], .int (-12)) := rfl
example : parse_override "x=0x1f" = .ok (["x"], .int 31) := rfl
example : parse_override "x=1.5e+3" = .ok (["x"], .float "1.5e+3") := rfl
example : parse_override "x=1.5e3" = .ok (["x"], .str "1.5e3") := rfl
example : parse_override "x=a=b" = .ok (["x"], .str "a=b") := rfl

/-! # Theorems -/

theorem lookup_setKey (d : Dict) (k : String) (v : Value) :
    lookup (setKey d k v) k = some v := by
  induction d with
  | nil => simp [setKey, lookup]
  | cons p rest ih =>
    obtain ⟨k', v'⟩ := p
    by_cases h : k' = k
    · subst h; simp [setKey, lookup]
    · simp [setKey, lookup, h, ih]

/-- After a successful `set_by_path` the value at the full path is the
assigned one. -/
theorem get_by_path_set : ∀ (d : Dict) (ks : List String) (v : Value) (d' : Dict),
    set_by_path d ks v = .ok d' → get_by_path d' ks = some v
  | _, [], _, _, h => by simp [set_by_path] at h
  | d, [k], v, d', h => by
    simp only [set_by_path, Except.ok.injEq] at h
    subst h
    simp [get_by_path, lookup_setKey]
  | d, k :: k2 :: rest, v, d', h => by
    simp only [set_by_path] at h
    split at h
    · -- intermediate key absent: created as an empty dict
      rename_i hl
      split at h
      · simp at h
      · rename_i m' hs
        simp only [Except.ok.injEq] at h
        subst h
        have ih := get_by_path_set [] (k2 :: rest) v m' hs
        simp [get_by_path, lookup_setKey, ih]
    · -- intermediate key holds a dict
      rename_i m hl
      split at h
      · simp at h
      · rename_i m' hs
        simp only [Except.ok.injEq] at h
        subst h
        have ih := get_by_path_set m (k2 :: rest) v m' hs
        simp [get_by_path, lookup_setKey, ih]
    · -- intermediate key holds a non-dict: contradiction with success
      simp at h

/-- C2: for overrides `o1`, `o2` that parse to the same path, applying
`[o1, o2]` puts `o2`'s parsed value at that path and applying
`[o2, o1]` puts `o1`'s parsed value there — the later override in list
order wins. -/
theorem apply_overrides_last_wins (cfg : Dict) (o1 o2 : String) (ks : List String)
    (v1 v2 : Value)
    (h1 : parse_override o1 = .ok (ks, v1)) (h2 : parse_override o2 = .ok (ks, v2)) :
    (∀ d, apply_overrides cfg [o1, o2] = .ok d → get_by_path d ks = some v2) ∧
    (∀ d, apply_overrides cfg [o2, o1] = .ok d → get_by_path d ks = some v1) := by
  constructor
  · intro d h
    simp only [apply_overrides, h1, h2] at h
    split at h
    · simp at h
    · rename_i c1 hs1
      split at h
      · simp at h
      · rename_i c2 hs2
        simp only [Except.ok.injEq] at h
        subst h
        exact get_by_path_set c1 ks v2 _ hs2
  · intro d h
    simp only [apply_overrides, h1, h2] at h
    split at h
    · simp at h
    · rename_i c1 hs1
      split at h
      · simp at h
      · rename_i c2 hs2
        simp only [Except.ok.injEq] at h
        subst h
        exact get_by_path_set c1 ks v1 _ hs2

/-- Witness for C2 at `cfg = {}`, `o1 = "a=1"`, `o2 = "a=2"`. -/
theorem apply_overrides_last_wins_witness :
    get_by_path [("a", Value.int 2)] ["a"] = some (Value.int 2) ∧
    get_by_path [("a", Value.int 1)] ["a"] = some (Value.int 1) :=
  ⟨(apply_overrides_last_wins [] "a=1" "a=2" ["a"] (.int 1) (.int 2) rfl rfl).1
      [("a", Value.int 2)] rfl,
   (apply_overrides_last_wins [] "a=1" "a=2" ["a"] (.int 1) (.int 2) rfl rfl).2
      [("a", Value.int 1)] rfl⟩

/-- C4, the code evaluated at the claimed input: PyYAML's YAML 1.1
float tag requires a literal dot in the mantissa, so
`yaml.safe_load("1e-3")` yields the string `"1e-3"`, not the float
`0.001` that the claim (and the code's own comment,
`# typed parsing: 1e-3 -> float`) promises. -/
theorem parse_override_sci_notation_is_string :
    parse_override "trainer.lr=1e-3" = .ok (["trainer", "lr"], Value.str "1e-3") := rfl

/-- C5 counterexample: the claim says `parse_override "a="` (empty
value) fails, but the code accepts it — the empty trimmed value is
handed to `yaml.safe_load`, which resolves an empty document to
`None`. -/
theorem parse_override_empty_value_accepted :
    parse_override "a=" = .ok (["a"], Value.null) := rfl

/-- C5 (amended): `parse_override` fails on `"=b"` (empty key) and on
`"novalue"` (no `=`), but accepts `"a="` with value `None`. -/
theorem parse_override_rejections :
    (∃ m, parse_override "=b" = .error (.valueError m)) ∧
    (∃ m, parse_override "novalue" = .error (.valueError m)) ∧
    parse_override "a=" = .ok (["a"], Value.null) :=
  ⟨⟨"override key is empty: =b", rfl⟩,
   ⟨"override must contain '=': novalue", rfl⟩, rfl⟩

/-- When every intermediate segment is absent or a mapping,
`set_by_path` succeeds and the value lands at the path. -/
theorem set_by_path_ok_of_pathOk : ∀ (d : Dict) (ks : List String) (v : Value),
    ks ≠ [] → pathOk d ks = true →
    ∃ d', set_by_path d ks v = .ok d' ∧ get_by_path d' ks = some v
  | _, [], _, hne, _ => absurd rfl hne
  | d, [k], v, _, _ =>
    ⟨setKey d k v, rfl, by simp [get_by_path, lookup_setKey]⟩
  | d, k :: k2 :: rest, v, _, hp => by
    simp only [pathOk] at hp
    cases hl : lookup d k with
    | none =>
      rw [hl] at hp
      obtain ⟨m', hm', hg⟩ :=
        set_by_path_ok_of_pathOk [] (k2 :: rest) v (by simp) hp
      refine ⟨setKey d k (.map m'), ?_, ?_⟩
      · simp only [set_by_path, hl, hm']
      · simp [get_by_path, lookup_setKey, hg]
    | some w =>
      rw [hl] at hp
      cases w with
      | map m =>
        obtain ⟨m', hm', hg⟩ :=
          set_by_path_ok_of_pathOk m (k2 :: rest) v (by simp) hp
        refine ⟨setKey d k (.map m'), ?_, ?_⟩
        · simp only [set_by_path, hl, hm']
        · simp [get_by_path, lookup_setKey, hg]
      | null => simp at hp
      | bool b => simp at hp
      | int n => simp at hp
      | float lit => simp at hp
      | str s => simp at hp
      | arr xs => simp at hp

/-- When some intermediate segment holds a non-mapping value,
`set_by_path` raises `TypeError`. -/
theorem set_by_path_err_of_not_pathOk : ∀ (d : Dict) (ks : List String) (v : Value),
    pathOk d ks = false → ∃ m, set_by_path d ks v = .error (.typeError m)
  | _, [], _, hp => by simp [pathOk] at hp
  | _, [k], _, hp => by simp [pathOk] at hp
  | d, k :: k2 :: rest, v, hp => by
    simp only [pathOk] at hp
    cases hl : lookup d k with
    | none =>
      rw [hl] at hp
      obtain ⟨m, hm⟩ := set_by_path_err_of_not_pathOk [] (k2 :: rest) v hp
      exact ⟨m, by simp only [set_by_path, hl, hm]⟩
    | some w =>
      rw [hl] at hp
      cases w with
      | map m =>
        obtain ⟨msg, hm⟩ := set_by_path_err_of_not_pathOk m (k2 :: rest) v hp
        exact ⟨msg, by simp only [set_by_path, hl, hm]⟩
      | null =>
        exact ⟨"override path hits non-dict at '" ++ k ++ "'", by simp only [set_by_path, hl]⟩
      | bool b =>
        exact ⟨"override path hits non-dict at '" ++ k ++ "'", by simp only [set_by_path, hl]⟩
      | int n =>
        exact ⟨"override path hits non-dict at '" ++ k ++ "'", by simp only [set_by_path, hl]⟩
      | float lit =>
        exact ⟨"override path hits non-dict at '" ++ k ++ "'", by simp only [set_by_path, hl]⟩
      | str s =>
        exact ⟨"override path hits non-dict at '" ++ k ++ "'", by simp only [set_by_path, hl]⟩
      | arr xs =>
        exact ⟨"override path hits non-dict at '" ++ k ++ "'", by simp only [set_by_path, hl]⟩

/-- C6: on a non-empty path, `set_by_path` succeeds — creating any
missing intermediate mapping levels — exactly when no intermediate
segment holds a non-mapping value (otherwise it raises `TypeError`),
and on success the terminal segment holds the assigned value
unconditionally, even when the prior value there was itself a
mapping. -/
theorem set_by_path_correct (d : Dict) (ks : List String) (v : Value) (hne : ks ≠ []) :
    (pathOk d ks = true →
      ∃ d', set_by_path d ks v = .ok d' ∧ get_by_path d' ks = some v) ∧
    (pathOk d ks = false → ∃ m, set_by_path d ks v = .error (.typeError m)) :=
  ⟨fun hp => set_by_path_ok_of_pathOk d ks v hne hp,
   fun hp => set_by_path_err_of_not_pathOk d ks v hp⟩

/-- Witness for C6: the spec's own example
`set_by_path({"a": 1}, ["a","b"], 2)` fails with a type error, and a
creation/overwrite instance `set_by_path({"a": {"b": 1}}, ["a","b"], 2)`
succeeds. -/
theorem set_by_path_correct_witness :
    (∃ m, set_by_path [("a", Value.int 1)] ["a", "b"] (Value.int 2) =
      .error (.typeError m)) ∧
    (∃ d', set_by_path [("a", Value.map [("b", Value.int 1)])] ["a", "b"] (Value.int 2) =
      .ok d' ∧ get_by_path d' ["a", "b"] = some (Value.int 2)) :=
  ⟨(set_by_path_correct [("a", Value.int 1)] ["a", "b"] (Value.int 2)
      (by simp)).2 rfl,
   (set_by_path_correct [("a", Value.map [("b", Value.int 1)])] ["a", "b"] (Value.int 2)
      (by simp)).1 rfl⟩

/-- C10: the `--seed` value is written under the top-level `"seed"`
key before the overrides run, so an override targeting `["seed"]` wins
in the final config (and hence in its hash), while the `RunMeta`
record's `seed` field still records the flag value. -/
theorem cmd_run_seed_override (cfg0 : Dict) (s : Int) (ov : String) (v : Value)
    (hp : parse_override ov = .ok (["seed"], v)) :
    ∃ out, cmd_run_core cfg0 (some s) [ov] = .ok out ∧
      lookup out.final_cfg "seed" = some v ∧
      out.chash = config_hash out.final_cfg ∧
      out.metaSeed = some s := by
  have happ : apply_overrides (setKey cfg0 "seed" (.int s)) [ov]
      = .ok (setKey (setKey cfg0 "seed" (.int s)) "seed" v) := by
    simp only [apply_overrides, hp, set_by_path]
  refine ⟨⟨setKey (setKey cfg0 "seed" (.int s)) "seed" v,
          config_hash (setKey (setKey cfg0 "seed" (.int s)) "seed" v), some s⟩,
    ?_, lookup_setKey _ _ _, rfl, rfl⟩
  simp only [cmd_run_core, happ]

/-- Witness for C10: `--seed 7 --set seed=3` on an empty config. -/
theorem cmd_run_seed_override_witness :
    ∃ out, cmd_run_core [] (some 7) ["seed=3"] = .ok out ∧
      lookup out.final_cfg "seed" = some (Value.int 3) ∧
      out.chash = config_hash out.final_cfg ∧
      out.metaSeed = some 7 :=
  cmd_run_seed_override [] 7 "seed=3" (Value.int 3) rfl

/-- C7: `load_config` fails with `FileNotFoundError` when the path
does not exist; with `ValueError` when the lower-cased extension is
not `.yaml`/`.yml`/`.json`; yields the empty mapping when the parser
returns `None` (the empty YAML document); and fails with `TypeError`
when the parsed root is neither `None` nor a mapping. -/
theorem load_config_spec (ex : Bool) (suffix : String) (doc : Value) :
    (ex = false → ∃ m, load_config ex suffix doc = .error (.fileNotFoundError m)) ∧
    (ex = true →
      ¬(pyLower suffix = ".yaml" ∨ pyLower suffix = ".yml" ∨ pyLower suffix = ".json") →
      ∃ m, load_config ex suffix doc = .error (.valueError m)) ∧
    (ex = true →
      (pyLower suffix = ".yaml" ∨ pyLower suffix = ".yml" ∨ pyLower suffix = ".json") →
      doc = .null → load_config ex suffix doc = .ok []) ∧
    (ex = true →
      (pyLower suffix = ".yaml" ∨ pyLower suffix = ".yml" ∨ pyLower suffix = ".json") →
      doc ≠ .null → (∀ kvs, doc ≠ .map kvs) →
      ∃ m, load_config ex suffix doc = .error (.typeError m)) := by
  refine ⟨?_, ?_, ?_, ?_⟩
  · rintro rfl
    exact ⟨"config not found", rfl⟩
  · rintro rfl hext
    rw [not_or, not_or] at hext
    refine ⟨"config must be .yaml/.yml/.json", ?_⟩
    simp [load_config, hext.1, hext.2.1, hext.2.2]
  · rintro rfl hext rfl
    rcases hext with h | h | h <;> simp [load_config, h]
  · rintro rfl hext hnn hnm
    have hcond : (pyLower suffix = ".yaml" || pyLower suffix = ".yml" ||
        pyLower suffix = ".json") = true := by
      rcases hext with h | h | h <;> simp [h]
    cases doc with
    | null => exact absurd rfl hnn
    | map kvs => exact absurd rfl (hnm kvs)
    | bool b => exact ⟨"config root must be a mapping/dict", by simp [load_config, hcond]⟩
    | int n => exact ⟨"config root must be a mapping/dict", by simp [load_config, hcond]⟩
    | float lit => exact ⟨"config root must be a mapping/dict", by simp [load_config, hcond]⟩
    | str s => exact ⟨"config root must be a mapping/dict", by simp [load_config, hcond]⟩
    | arr xs => exact ⟨"config root must be a mapping/dict", by simp [load_config, hcond]⟩

/-- Witness for C7 at a missing path, a `.toml` extension, an empty
YAML document and a scalar root. -/
theorem load_config_spec_witness :
    (∃ m, load_config false ".yaml" Value.null = .error (.fileNotFoundError m)) ∧
    (∃ m, load_config true ".toml" Value.null = .error (.valueError m)) ∧
    load_config true ".YAML" Value.null = .ok [] ∧
    (∃ m, load_config true ".json" (Value.int 3) = .error (.typeError m)) :=
  ⟨(load_config_spec false ".yaml" Value.null).1 rfl,
   (load_config_spec true ".toml" Value.null).2.1 rfl (by decide),
   (load_config_spec true ".YAML" Value.null).2.2.1 rfl (by decide) rfl,
   (load_config_spec true ".json" (Value.int 3)).2.2.2 rfl (by decide)
     (by intro h; cases h) (by intro kvs h; cases h)⟩

/-- C8: when the computed run directory `<cwd>/runs/<run_id>` already
exists, `mkdir(parents=True, exist_ok=False)` raises
`FileExistsError` and the file system — in particular everything under
the pre-existing directory — is unchanged. -/
theorem createRunDir_collision (fs : FS) (cwd : FPath) (run_id : String)
    (hex : (cwd ++ ["runs", run_id]) ∈ fs.dirs) :
    (∃ m, (createRunDir fs cwd run_id).1 = .error (.fileExistsError m)) ∧
    (createRunDir fs cwd run_id).2 = fs := by
  constructor
  · exact ⟨"File exists", by simp only [createRunDir, mkdirP, if_pos hex]⟩
  · simp only [createRunDir, mkdirP, if_pos hex]

/-- Witness for C8: a colliding `runs/r1` with a file inside it. -/
theorem createRunDir_collision_witness :
    (∃ m, (createRunDir ⟨[["runs"], ["runs", "r1"]], [(["runs", "r1", "meta.json"], "x")]⟩
        [] "r1").1 = .error (.fileExistsError m)) ∧
    (createRunDir ⟨[["runs"], ["runs", "r1"]], [(["runs", "r1", "meta.json"], "x")]⟩
        [] "r1").2 = ⟨[["runs"], ["runs", "r1"]], [(["runs", "r1", "meta.json"], "x")]⟩ :=
  createRunDir_collision ⟨[["runs"], ["runs", "r1"]], [(["runs", "r1", "meta.json"], "x")]⟩
    [] "r1" (by simp)

/-- C9: `generate_report` fails when the run directory is missing or
`meta.json` is missing; with `meta.json` present it succeeds whatever
optional artifacts are absent, rendering the explicit "not found" note
for a missing config snapshot, metrics record, or plots directory, and
with no plots directory it copies nothing and never creates the
assets directory. -/
theorem generate_report_spec (rd : RunDirFS) (name : String) :
    (rd.runDirExists = false →
      ∃ m, generate_report rd name = .error (.fileNotFoundError m)) ∧
    (rd.runDirExists = true → rd.meta = none →
      ∃ m, generate_report rd name = .error (.fileNotFoundError m)) ∧
    (∀ meta, rd.runDirExists = true → rd.meta = some meta →
      ∃ out, generate_report rd name = .ok out ∧
        (rd.configText = none → "_config_final.yaml not found._" ∈ out.lines) ∧
        (rd.metrics = none →
          "_metrics.json not found (this run may have failed or metrics were not generated)._"
            ∈ out.lines) ∧
        (rd.plots = none → "_No plot assets found._" ∈ out.lines ∧
          out.copied = [] ∧ out.assetsDirCreated = false)) := by
  obtain ⟨ex, metaO, cfgO, metO, plotsO⟩ := rd
  refine ⟨?_, ?_, ?_⟩
  · rintro rfl
    exact ⟨"run_dir not found", rfl⟩
  · rintro rfl rfl
    exact ⟨"meta.json not found", rfl⟩
  · rintro meta rfl rfl
    refine ⟨⟨mdLines name meta (cfgO.getD "") (metO.getD []) (copy_plot_assets plotsO).1,
      (copy_plot_assets plotsO).1, (copy_plot_assets plotsO).2⟩, rfl, ?_, ?_, ?_⟩
    · rintro rfl
      simp [mdLines, show pyStrip "" = "" from rfl]
    · rintro rfl
      simp [mdLines]
    · rintro rfl
      refine ⟨?_, rfl, rfl⟩
      simp [mdLines, copy_plot_assets]

/-- Witness for C9: a run directory holding only an (empty) parsed
`meta.json`. -/
theorem generate_report_spec_witness :
    ∃ out, generate_report ⟨true, some [], none, none, none⟩ "r1" = .ok out ∧
      "_config_final.yaml not found._" ∈ out.lines ∧
      "_metrics.json not found (this run may have failed or metrics were not generated)._"
        ∈ out.lines ∧
      "_No plot assets found._" ∈ out.lines ∧
      out.copied = [] ∧ out.assetsDirCreated = false := by
  obtain ⟨out, hok, h1, h2, h3⟩ :=
    (generate_report_spec ⟨true, some [], none, none, none⟩ "r1").2.2 [] rfl rfl
  exact ⟨out, hok, h1 rfl, h2 rfl, (h3 rfl).1, (h3 rfl).2.1, (h3 rfl).2.2⟩

/-! ### Key-order invariance of the config hash (C1) -/

theorem canonP_eq_map (l : List (String × Value)) :
    canonP l = l.map (fun p => (p.1, canon p.2)) := by
  induction l with
  | nil => rfl
  | cons p tl ih =>
    obtain ⟨k, v⟩ := p
    simp [canonP, ih]

theorem canonP_keys (l : List (String × Value)) :
    (canonP l).map Prod.fst = l.map Prod.fst := by
  simp [canonP_eq_map, List.map_map]

theorem keysDistinct_iff (l : List (String × Value)) :
    keysDistinct l = true ↔ (l.map Prod.fst).Nodup := by
  induction l with
  | nil => simp [keysDistinct]
  | cons p tl ih =>
    obtain ⟨k, v⟩ := p
    simp only [keysDistinct, Bool.and_eq_true, Bool.not_eq_true', List.any_eq_false,
      List.map_cons, List.nodup_cons, List.mem_map, ih, decide_eq_false_iff_not]
    aesop

theorem ndP_eq_all (l : List (String × Value)) :
    ndP l = l.all (fun p => ndV p.2) := by
  induction l with
  | nil => rfl
  | cons p tl ih =>
    obtain ⟨k, v⟩ := p
    simp [ndP, ih]

theorem ndP_of_perm {l l' : List (String × Value)} (h : l.Perm l')
    (hnd : ndP l = true) : ndP l' = true := by
  rw [ndP_eq_all, List.all_eq_true] at hnd ⊢
  exact fun p hp => hnd p (h.mem_iff.mpr hp)

theorem sameP_keys : ∀ {l m : List (String × Value)}, SameP l m →
    l.map Prod.fst = m.map Prod.fst
  | _, _, .nil => rfl
  | _, _, .cons _ hp => by simp [sameP_keys hp]

/-- Permuted item lists with duplicate-free keys sort to the same
list. -/
theorem mergeSort_eq_of_perm {l m : List (String × Value)}
    (hperm : l.Perm m) (hnd : (l.map Prod.fst).Nodup) :
    List.mergeSort l keyLeB = List.mergeSort m keyLeB := by
  have trans : ∀ a b c : String × Value, keyLeB a b → keyLeB b c → keyLeB a c := by
    intro a b c h1 h2
    simp only [keyLeB, decide_eq_true_eq] at h1 h2 ⊢
    exact le_trans h1 h2
  have total : ∀ a b : String × Value, keyLeB a b || keyLeB b a := by
    intro a b
    simp only [keyLeB, Bool.or_eq_true, decide_eq_true_eq]
    exact le_total a.1 b.1
  have s1 := List.sorted_mergeSort trans total l
  have s2 := List.sorted_mergeSort trans total m
  have hp : (List.mergeSort l keyLeB).Perm (List.mergeSort m keyLeB) :=
    (List.mergeSort_perm l _).trans (hperm.trans (List.mergeSort_perm m _).symm)
  have hnd1 : ((List.mergeSort l keyLeB).map Prod.fst).Nodup :=
    (((List.mergeSort_perm l keyLeB).map Prod.fst).nodup_iff).mpr hnd
  have hnd2 : ((List.mergeSort m keyLeB).map Prod.fst).Nodup :=
    ((hp.map Prod.fst).nodup_iff).mp hnd1
  have strict : ∀ (x : List (String × Value)),
      x.Pairwise (fun a b => keyLeB a b = true) → (x.map Prod.fst).Nodup →
      x.Pairwise (fun a b => a.1 < b.1) := by
    intro x hle hx
    have hne : x.Pairwise (fun a b : String × Value => a.1 ≠ b.1) :=
      (List.pairwise_map).mp hx
    exact (hle.and hne).imp (fun h => by
      rcases h with ⟨h1, h2⟩
      simp only [keyLeB, decide_eq_true_eq] at h1
      exact lt_of_le_of_ne h1 h2)
  haveI : IsAntisymm (String × Value) (fun a b => a.1 < b.1) :=
    ⟨fun a b h1 h2 => (lt_asymm h1 h2).elim⟩
  exact List.eq_of_perm_of_sorted hp (strict _ s1 hnd1) (strict _ s2 hnd2)

mutual

/-- `canon` maps content-equal values (up to key insertion order, with
duplicate-free keys) to the same canonical form. -/
theorem canon_sameV : ∀ {v w : Value}, SameV v w → ndV v = true → canon v = canon w
  | _, _, .null, _ => rfl
  | _, _, .bool _, _ => rfl
  | _, _, .int _, _ => rfl
  | _, _, .float _, _ => rfl
  | _, _, .str _, _ => rfl
  | _, _, .arr hL, hnd => by
    simp only [canon]
    exact congrArg Value.arr (canon_sameL hL (by simpa [ndV] using hnd))
  | _, _, .map hperm hsp, hnd => by
    rename_i l l' m
    simp only [ndV, Bool.and_eq_true] at hnd
    simp only [canon]
    refine congrArg Value.map ?_
    have hndP' : ndP l' = true := ndP_of_perm hperm hnd.2
    have hcp : canonP l' = canonP m := canon_sameP hsp hndP'
    have hpc : (canonP l).Perm (canonP l') := by
      rw [canonP_eq_map, canonP_eq_map]
      exact hperm.map _
    have hndk : ((canonP l).map Prod.fst).Nodup := by
      rw [canonP_keys]
      exact (keysDistinct_iff l).mp hnd.1
    calc List.mergeSort (canonP l) keyLeB
        = List.mergeSort (canonP l') keyLeB := mergeSort_eq_of_perm hpc hndk
      _ = List.mergeSort (canonP m) keyLeB := by rw [hcp]

theorem canon_sameL : ∀ {xs ys : List Value}, SameL xs ys → ndL xs = true →
    canonL xs = canonL ys
  | _, _, .nil, _ => rfl
  | _, _, .cons hv hl, hnd => by
    simp only [ndL, Bool.and_eq_true] at hnd
    simp only [canonL]
    exact congrArg₂ List.cons (canon_sameV hv hnd.1) (canon_sameL hl hnd.2)

theorem canon_sameP : ∀ {l m : List (String × Value)}, SameP l m → ndP l = true →
    canonP l = canonP m
  | _, _, .nil, _ => rfl
  | _, _, .cons hv hp, hnd => by
    simp only [ndP, Bool.and_eq_true] at hnd
    simp only [canonP]
    refine congrArg₂ List.cons ?_ (canon_sameP hp hnd.2)
    exact congrArg _ (canon_sameV hv hnd.1)

end

/-- FIPS 180-4 test vector: the digest of the empty message. -/
theorem sha256Hex_empty_vector :
    sha256Hex [] =
      "e3b0c44298fc1c149afbf4c8996fb92427ae41e4649b934ca495991b7852b855" := by rfl

/-- FIPS 180-4 test vector: the digest of the ASCII bytes of `abc`. -/
theorem sha256Hex_abc_vector :
    sha256Hex [97, 98, 99] =
      "ba7816bf8f01cfea414140de5dae2223b00361a396177a9cb410ff61f20015ad" := by rfl

theorem hex8_length (w : Nat) : (hex8 w).length = 8 := rfl

theorem hexDigit_mem (n : Nat) : hexDigit n ∈ hexChars := List.get_mem _ _ _

theorem mem_hex8 {c : Char} {w : Nat} (h : c ∈ hex8 w) : c ∈ hexChars := by
  simp only [hex8, List.mem_cons, List.not_mem_nil, or_false] at h
  rcases h with rfl | rfl | rfl | rfl | rfl | rfl | rfl | rfl <;> exact hexDigit_mem _

theorem sha256Hex_length (m : List Nat) : (sha256Hex m).length = 64 := by
  show (hex8 _ ++ hex8 _ ++ hex8 _ ++ hex8 _ ++ hex8 _ ++ hex8 _ ++ hex8 _ ++
    hex8 _).length = 64
  simp [List.length_append, hex8_length]

theorem sha256Hex_mem {m : List Nat} {c : Char} (hc : c ∈ (sha256Hex m).data) :
    c ∈ hexChars := by
  have h : c ∈ hex8 (sha256Words m).a ++ hex8 (sha256Words m).b ++ hex8 (sha256Words m).c ++
      hex8 (sha256Words m).d ++ hex8 (sha256Words m).e ++ hex8 (sha256Words m).f ++
      hex8 (sha256Words m).g ++ hex8 (sha256Words m).h := hc
  simp only [List.mem_append] at h
  rcases h with ((((((h | h) | h) | h) | h) | h) | h) | h <;> exact mem_hex8 h

/-- C1: configs with identical key/value content, in any key insertion
order, hash identically; and every hash is a 64-character string of
lowercase hex digits — the hex encoding of the 256-bit SHA-256 digest
of the canonical sorted-key minimal-whitespace JSON serialization
(which is the definition of `config_hash` above, digesting
`utf8Bytes (dumpV (canon (.map cfg)))` with `sha256Hex`). -/
theorem config_hash_spec (c1 c2 : Dict)
    (hnd1 : ndV (.map c1) = true) (hnd2 : ndV (.map c2) = true)
    (hsame : SameV (.map c1) (.map c2)) :
    config_hash c1 = config_hash c2 ∧
    ∀ cfg : Dict, (config_hash cfg).length = 64 ∧
      ∀ c ∈ (config_hash cfg).data, c ∈ hexChars := by
  refine ⟨?_, fun cfg => ⟨sha256Hex_length _, fun c hc => sha256Hex_mem hc⟩⟩
  unfold config_hash
  rw [canon_sameV hsame hnd1]

/-- Witness for C1 at `{"b": 2, "a": 1}` against `{"a": 1, "b": 2}`. -/
theorem config_hash_spec_witness :
    config_hash [("b", Value.int 2), ("a", Value.int 1)] =
      config_hash [("a", Value.int 1), ("b", Value.int 2)] ∧
    ∀ cfg : Dict, (config_hash cfg).length = 64 ∧
      ∀ c ∈ (config_hash cfg).data, c ∈ hexChars :=
  config_hash_spec [("b", Value.int 2), ("a", Value.int 1)]
    [("a", Value.int 1), ("b", Value.int 2)]
    (by simp [ndV, ndP, keysDistinct])
    (by simp [ndV, ndP, keysDistinct])
    (.map (List.Perm.swap ("a", Value.int 1) ("b", Value.int 2) [])
      (.cons (.int 1) (.cons (.int 2) .nil)))

/-! ### The frame property of `apply_overrides` (C3) -/

theorem get?_set_ne' {α : Type} (l : List α) (i j : Nat) (a : α) (hij : i ≠ j) :
    (l.set i a).get? j = l.get? j := by
  simp [List.get?_eq_getElem?, List.getElem?_set_ne hij]

theorem get?_set_self' {α : Type} (l : List α) (i : Nat) (a : α) (hi : i < l.length) :
    (l.set i a).get? i = some a := by
  simp [List.get?_eq_getElem?, List.getElem?_set_self hi]

theorem hsetKey_refsOk {p : Nat → Bool} {v : HVal} (hv : refsOkV p v = true) :
    ∀ {o : HObj}, refsOkObj p o = true → refsOkObj p (hsetKey o k v) = true := by
  intro o
  induction o with
  | nil => intro _; simp [hsetKey, refsOkObj, hv]
  | cons q tl ih =>
    obtain ⟨k', w⟩ := q
    intro ho
    simp only [refsOkObj, Bool.and_eq_true] at ho
    by_cases hk : k' = k
    · simp [hsetKey, hk, refsOkObj, hv, ho.2]
    · simp [hsetKey, hk, refsOkObj, ho.1, ih ho.2]

theorem hlookup_refsOk {p : Nat → Bool} :
    ∀ {o : HObj} {w : HVal}, refsOkObj p o = true → hlookup o k = some w →
      refsOkV p w = true := by
  intro o
  induction o with
  | nil => intro w _ hl; simp [hlookup] at hl
  | cons q tl ih =>
    obtain ⟨k', v'⟩ := q
    intro w ho hl
    simp only [refsOkObj, Bool.and_eq_true] at ho
    by_cases hk : k' = k
    · simp only [hlookup, if_pos hk, Option.some.injEq] at hl
      subst hl
      exact ho.1
    · simp only [hlookup, if_neg hk] at hl
      exact ih ho.2 hl

mutual

theorem storeV_spec : ∀ (n : Nat) (h : Heap) (v : Value), n ≤ h.length →
    h.length ≤ (storeV h v).1.length ∧
    (∀ i, i < h.length → (storeV h v).1.get? i = h.get? i) ∧
    refsOkV (fun a => decide (n ≤ a)) (storeV h v).2 = true ∧
    (goodAbove n h → goodAbove n (storeV h v).1)
  | _, _, .null, _ => ⟨le_refl _, fun _ _ => rfl, rfl, id⟩
  | _, _, .bool _, _ => ⟨le_refl _, fun _ _ => rfl, rfl, id⟩
  | _, _, .int _, _ => ⟨le_refl _, fun _ _ => rfl, rfl, id⟩
  | _, _, .float _, _ => ⟨le_refl _, fun _ _ => rfl, rfl, id⟩
  | _, _, .str _, _ => ⟨le_refl _, fun _ _ => rfl, rfl, id⟩
  | n, h, .arr xs, hn => by
    have ih := storeL_spec n h xs hn
    simpa only [storeV, refsOkV] using ih
  | n, h, .map kvs, hn => by
    have ih := storeP_spec n h kvs hn
    simp only [storeV, refsOkV]
    refine ⟨?_, ?_, ?_, ?_⟩
    · simp only [List.length_append, List.length_cons]
      omega
    · intro i hi
      rw [List.get?_append (lt_of_lt_of_le hi ih.1)]
      exact ih.2.1 i hi
    · simp only [decide_eq_true_eq]
      omega
    · intro hg i o hi hget
      rcases Nat.lt_trichotomy i (storeP h kvs).1.length with hlt | heq | hgt
      · rw [List.get?_append hlt] at hget
        exact ih.2.2.2 hg i o hi hget
      · subst heq
        rw [List.get?_concat_length] at hget
        cases hget
        exact ih.2.2.1
      · rw [List.get?_eq_none.mpr (by simp; omega)] at hget
        cases hget

theorem storeL_spec : ∀ (n : Nat) (h : Heap) (xs : List Value), n ≤ h.length →
    h.length ≤ (storeL h xs).1.length ∧
    (∀ i, i < h.length → (storeL h xs).1.get? i = h.get? i) ∧
    refsOkL (fun a => decide (n ≤ a)) (storeL h xs).2 = true ∧
    (goodAbove n h → goodAbove n (storeL h xs).1)
  | _, _, [], _ => ⟨le_refl _, fun _ _ => rfl, rfl, id⟩
  | n, h, x :: xs, hn => by
    have ih1 := storeV_spec n h x hn
    have ih2 := storeL_spec n (storeV h x).1 xs (le_trans hn ih1.1)
    simp only [storeL, refsOkL, Bool.and_eq_true]
    refine ⟨le_trans ih1.1 ih2.1, ?_, ⟨ih1.2.2.1, ih2.2.2.1⟩,
      fun hg => ih2.2.2.2 (ih1.2.2.2 hg)⟩
    intro i hi
    rw [ih2.2.1 i (lt_of_lt_of_le hi ih1.1), ih1.2.1 i hi]

theorem storeP_spec : ∀ (n : Nat) (h : Heap) (kvs : List (String × Value)), n ≤ h.length →
    h.length ≤ (storeP h kvs).1.length ∧
    (∀ i, i < h.length → (storeP h kvs).1.get? i = h.get? i) ∧
    refsOkObj (fun a => decide (n ≤ a)) (storeP h kvs).2 = true ∧
    (goodAbove n h → goodAbove n (storeP h kvs).1)
  | _, _, [], _ => ⟨le_refl _, fun _ _ => rfl, rfl, id⟩
  | n, h, (k, v) :: tl, hn => by
    have ih1 := storeV_spec n h v hn
    have ih2 := storeP_spec n (storeV h v).1 tl (le_trans hn ih1.1)
    simp only [storeP, refsOkObj, Bool.and_eq_true]
    refine ⟨le_trans ih1.1 ih2.1, ?_, ⟨ih1.2.2.1, ih2.2.2.1⟩,
      fun hg => ih2.2.2.2 (ih1.2.2.2 hg)⟩
    intro i hi
    rw [ih2.2.1 i (lt_of_lt_of_le hi ih1.1), ih1.2.1 i hi]

end

/-- `copy.deepcopy` only appends fresh cells: the original cells are
untouched, the copy's references all point at or above the old heap
end, and the fresh region is closed. -/
theorem copy_spec (n : Nat) : ∀ (fuel : Nat),
    (∀ h v r, n ≤ h.length → copyV fuel h v = some r →
      h.length ≤ r.1.length ∧ (∀ i, i < h.length → r.1.get? i = h.get? i) ∧
      refsOkV (fun a => decide (n ≤ a)) r.2 = true ∧
      (goodAbove n h → goodAbove n r.1)) ∧
    (∀ h xs r, n ≤ h.length → copyL fuel h xs = some r →
      h.length ≤ r.1.length ∧ (∀ i, i < h.length → r.1.get? i = h.get? i) ∧
      refsOkL (fun a => decide (n ≤ a)) r.2 = true ∧
      (goodAbove n h → goodAbove n r.1)) ∧
    (∀ h o r, n ≤ h.length → copyObj fuel h o = some r →
      h.length ≤ r.1.length ∧ (∀ i, i < h.length → r.1.get? i = h.get? i) ∧
      refsOkObj (fun a => decide (n ≤ a)) r.2 = true ∧
      (goodAbove n h → goodAbove n r.1)) := by
  intro fuel
  induction fuel with
  | zero =>
    refine ⟨?_, ?_, ?_⟩
    · intro h v r hn hc
      cases v with
      | null =>
        simp only [copyV, Option.some.injEq] at hc
        subst hc
        exact ⟨le_refl _, fun _ _ => rfl, rfl, id⟩
      | hbool b =>
        simp only [copyV, Option.some.injEq] at hc
        subst hc
        exact ⟨le_refl _, fun _ _ => rfl, rfl, id⟩
      | hint m =>
        simp only [copyV, Option.some.injEq] at hc
        subst hc
        exact ⟨le_refl _, fun _ _ => rfl, rfl, id⟩
      | hfloat lit =>
        simp only [copyV, Option.some.injEq] at hc
        subst hc
        exact ⟨le_refl _, fun _ _ => rfl, rfl, id⟩
      | hstr s =>
        simp only [copyV, Option.some.injEq] at hc
        subst hc
        exact ⟨le_refl _, fun _ _ => rfl, rfl, id⟩
      | harr xs => simp [copyV] at hc
      | href a => simp [copyV] at hc
    · intro h xs r hn hc
      cases xs with
      | nil =>
        simp only [copyL, Option.some.injEq] at hc
        subst hc
        exact ⟨le_refl _, fun _ _ => rfl, rfl, id⟩
      | cons x xs => simp [copyL] at hc
    · intro h o r hn hc
      cases o with
      | nil =>
        simp only [copyObj, Option.some.injEq] at hc
        subst hc
        exact ⟨le_refl _, fun _ _ => rfl, rfl, id⟩
      | cons q tl => obtain ⟨k, v⟩ := q; simp [copyObj] at hc
  | succ fuel ih =>
    refine ⟨?_, ?_, ?_⟩
    · intro h v r hn hc
      cases v with
      | null =>
        simp only [copyV, Option.some.injEq] at hc
        subst hc
        exact ⟨le_refl _, fun _ _ => rfl, rfl, id⟩
      | hbool b =>
        simp only [copyV, Option.some.injEq] at hc
        subst hc
        exact ⟨le_refl _, fun _ _ => rfl, rfl, id⟩
      | hint m =>
        simp only [copyV, Option.some.injEq] at hc
        subst hc
        exact ⟨le_refl _, fun _ _ => rfl, rfl, id⟩
      | hfloat lit =>
        simp only [copyV, Option.some.injEq] at hc
        subst hc
        exact ⟨le_refl _, fun _ _ => rfl, rfl, id⟩
      | hstr s =>
        simp only [copyV, Option.some.injEq] at hc
        subst hc
        exact ⟨le_refl _, fun _ _ => rfl, rfl, id⟩
      | harr xs =>
        simp only [copyV] at hc
        split at hc
        · cases hc
        · rename_i r' hr'
          simp only [Option.some.injEq] at hc
          subst hc
          have hl := ih.2.1 h xs r' hn hr'
          exact ⟨hl.1, hl.2.1, by simpa only [refsOkV] using hl.2.2.1, hl.2.2.2⟩
      | href a =>
        simp only [copyV] at hc
        split at hc
        · cases hc
        · rename_i o hget
          split at hc
          · cases hc
          · rename_i r' hr'
            simp only [Option.some.injEq] at hc
            subst hc
            have ho := ih.2.2 h o r' hn hr'
            refine ⟨?_, ?_, ?_, ?_⟩
            · simp only [List.length_append, List.length_cons]
              omega
            · intro i hi
              rw [List.get?_eq_getElem?, List.getElem?_append_left (lt_of_lt_of_le hi ho.1),
                ← List.get?_eq_getElem?]
              exact ho.2.1 i hi
            · simp only [refsOkV, decide_eq_true_eq]
              omega
            · intro hg i o' hi hget'
              rcases Nat.lt_trichotomy i r'.1.length with hlt | heq | hgt
              · rw [List.get?_eq_getElem?, List.getElem?_append_left hlt,
                  ← List.get?_eq_getElem?] at hget'
                exact ho.2.2.2 hg i o' hi hget'
              · subst heq
                rw [List.get?_eq_getElem?, List.getElem?_concat_length] at hget'
                cases hget'
                exact ho.2.2.1
              · rw [List.get?_eq_none.mpr (by simp; omega)] at hget'
                cases hget'
    · intro h xs r hn hc
      cases xs with
      | nil =>
        simp only [copyL, Option.some.injEq] at hc
        subst hc
        exact ⟨le_refl _, fun _ _ => rfl, rfl, id⟩
      | cons x xs =>
        simp only [copyL] at hc
        split at hc
        · cases hc
        · rename_i r1 hr1
          split at hc
          · cases hc
          · rename_i r2 hr2
            simp only [Option.some.injEq] at hc
            subst hc
            have h1 := ih.1 h x r1 hn hr1
            have h2 := ih.2.1 r1.1 xs r2 (le_trans hn h1.1) hr2
            refine ⟨le_trans h1.1 h2.1, ?_,
              by simp only [refsOkL, Bool.and_eq_true]; exact ⟨h1.2.2.1, h2.2.2.1⟩,
              fun hg => h2.2.2.2 (h1.2.2.2 hg)⟩
            intro i hi
            rw [h2.2.1 i (lt_of_lt_of_le hi h1.1), h1.2.1 i hi]
    · intro h o r hn hc
      cases o with
      | nil =>
        simp only [copyObj, Option.some.injEq] at hc
        subst hc
        exact ⟨le_refl _, fun _ _ => rfl, rfl, id⟩
      | cons q tl =>
        obtain ⟨k, v⟩ := q
        simp only [copyObj] at hc
        split at hc
        · cases hc
        · rename_i r1 hr1
          split at hc
          · cases hc
          · rename_i r2 hr2
            simp only [Option.some.injEq] at hc
            subst hc
            have h1 := ih.1 h v r1 hn hr1
            have h2 := ih.2.2 r1.1 tl r2 (le_trans hn h1.1) hr2
            refine ⟨le_trans h1.1 h2.1, ?_,
              by simp only [refsOkObj, Bool.and_eq_true]; exact ⟨h1.2.2.1, h2.2.2.1⟩,
              fun hg => h2.2.2.2 (h1.2.2.2 hg)⟩
            intro i hi
            rw [h2.2.1 i (lt_of_lt_of_le hi h1.1), h1.2.1 i hi]

/-- The in-place walk of `set_by_path`, rooted at or above `n` in a
heap closed above `n`, writes only at or above `n` and keeps the
closure. -/
theorem setByPathH_frame (n : Nat) : ∀ (h : Heap) (a : Nat) (ks : List String) (v : HVal)
    (h' : Heap), n ≤ a → n ≤ h.length → goodAbove n h →
    refsOkV (fun x => decide (n ≤ x)) v = true →
    setByPathH h a ks v = .ok h' →
    (∀ i, i < n → h'.get? i = h.get? i) ∧ n ≤ h'.length ∧ goodAbove n h'
  | h, a, [], v, h', _, _, _, _, hset => by simp [setByPathH] at hset
  | h, a, [k], v, h', ha, hn, hg, hv, hset => by
    simp only [setByPathH] at hset
    split at hset
    · cases hset
    · rename_i o hget
      simp only [Except.ok.injEq] at hset
      subst hset
      refine ⟨?_, ?_, ?_⟩
      · intro i hi
        exact get?_set_ne' h a i _ (by omega)
      · simpa using hn
      · intro i o' hi hget'
        by_cases hia : i = a
        · subst hia
          have hlen : i < h.length := by
            by_contra hcon
            rw [List.get?_eq_none.mpr (by omega)] at hget
            cases hget
          rw [get?_set_self' h i _ hlen] at hget'
          cases hget'
          exact hsetKey_refsOk hv (hg i o hi hget)
        · rw [get?_set_ne' h a i _ (fun hc => hia hc.symm)] at hget'
          exact hg i o' hi hget'
  | h, a, k :: k2 :: rest, v, h', ha, hn, hg, hv, hset => by
    simp only [setByPathH] at hset
    split at hset
    · cases hset
    · rename_i o hget
      split at hset
      · -- existing nested dict: recurse at its (closed-above) address
        rename_i b hlk
        have hb : n ≤ b := by
          have := hlookup_refsOk (hg a o ha hget) hlk
          simpa [refsOkV] using this
        exact setByPathH_frame n h b (k2 :: rest) v h' hb hn hg hv hset
      · cases hset
      · -- missing intermediate: allocate an empty dict and recurse
        rename_i hlk
        have hlen : a < h.length := by
          by_contra hcon
          rw [List.get?_eq_none.mpr (by omega)] at hget
          cases hget
        have hg1 : goodAbove n ((h ++ [([] : HObj)]).set a
            (hsetKey o k (.href h.length))) := by
          intro i o' hi hget'
          by_cases hia : i = a
          · subst hia
            rw [get?_set_self' _ _ _ (by simp; omega)] at hget'
            cases hget'
            refine hsetKey_refsOk ?_ (hg i o hi hget)
            simp only [refsOkV, decide_eq_true_eq]
            omega
          · rw [get?_set_ne' _ _ _ _ (fun hc => hia hc.symm)] at hget'
            rcases Nat.lt_trichotomy i h.length with hlt | heq | hgt
            · rw [List.get?_eq_getElem?, List.getElem?_append_left hlt,
                ← List.get?_eq_getElem?] at hget'
              exact hg i o' hi hget'
            · subst heq
              rw [List.get?_eq_getElem?, List.getElem?_concat_length] at hget'
              cases hget'
              rfl
            · rw [List.get?_eq_none.mpr (by simp; omega)] at hget'
              cases hget'
        have ih := setByPathH_frame n ((h ++ [([] : HObj)]).set a
            (hsetKey o k (.href h.length))) h.length (k2 :: rest) v h' hn
          (by simp; omega) hg1 hv hset
        refine ⟨?_, ih.2.1, ih.2.2⟩
        intro i hi
        rw [ih.1 i hi, get?_set_ne' _ _ _ _ (by omega),
          List.get?_eq_getElem?, List.getElem?_append_left (by omega),
          ← List.get?_eq_getElem?]

/-- The override loop writes only at or above `n` when rooted there. -/
theorem applyOvLoop_frame (n : Nat) : ∀ (ovs : List String) (h : Heap) (b : Nat) (h' : Heap),
    n ≤ b → n ≤ h.length → goodAbove n h →
    applyOvLoop h b ovs = .ok h' →
    (∀ i, i < n → h'.get? i = h.get? i) ∧ n ≤ h'.length ∧ goodAbove n h'
  | [], h, b, h', _, hn, hg, hrun => by
    simp only [applyOvLoop, Except.ok.injEq] at hrun
    subst hrun
    exact ⟨fun _ _ => rfl, hn, hg⟩
  | s :: rest, h, b, h', hb, hn, hg, hrun => by
    simp only [applyOvLoop] at hrun
    split at hrun
    · cases hrun
    · rename_i ks v hpv
      split at hrun
      · cases hrun
      · rename_i h2 hset
        have hs := storeV_spec n h v hn
        have hsf := setByPathH_frame n (storeV h v).1 b ks (storeV h v).2 h2 hb
          (le_trans hn hs.1) (hs.2.2.2 hg) hs.2.2.1 hset
        have ih := applyOvLoop_frame n rest h2 b h' hb hsf.2.1 hsf.2.2 hrun
        refine ⟨?_, ih.2.1, ih.2.2⟩
        intro i hi
        rw [ih.1 i hi, hsf.1 i hi, hs.2.1 i (lt_of_lt_of_le hi hn)]

/-- Reading through values whose references stay below `n` sees only
cells below `n`, so two heaps agreeing there read back equal values. -/
theorem read_congr (n : Nat) (h h' : Heap)
    (hag : ∀ i, i < n → h'.get? i = h.get? i)
    (hcl : ∀ i o, h.get? i = some o →
      refsOkObj (fun x => decide (x < n)) o = true) :
    ∀ fuel : Nat,
      (∀ v, refsOkV (fun x => decide (x < n)) v = true →
        readV h' fuel v = readV h fuel v) ∧
      (∀ xs, refsOkL (fun x => decide (x < n)) xs = true →
        readL h' fuel xs = readL h fuel xs) ∧
      (∀ o, refsOkObj (fun x => decide (x < n)) o = true →
        readObj h' fuel o = readObj h fuel o) := by
  intro fuel
  induction fuel with
  | zero =>
    refine ⟨?_, ?_, ?_⟩
    · intro v _
      cases v <;> rfl
    · intro xs _
      cases xs <;> rfl
    · intro o _
      cases o <;> rfl
  | succ fuel ih =>
    refine ⟨?_, ?_, ?_⟩
    · intro v hv
      cases v with
      | null => rfl
      | hbool b => rfl
      | hint m => rfl
      | hfloat lit => rfl
      | hstr s => rfl
      | harr xs =>
        simp only [readV]
        rw [ih.2.1 xs (by simpa [refsOkV] using hv)]
      | href a =>
        have ha : a < n := by simpa [refsOkV] using hv
        simp only [readV]
        rw [hag a ha]
        cases hget : h.get? a with
        | none => rfl
        | some o =>
          have hro := ih.2.2 o (hcl a o hget)
          simp [hro]
    · intro xs hxs
      cases xs with
      | nil => rfl
      | cons x tl =>
        simp only [refsOkL, Bool.and_eq_true] at hxs
        simp only [readL]
        rw [ih.1 x hxs.1, ih.2.1 tl hxs.2]
    · intro o ho
      cases o with
      | nil => rfl
      | cons q tl =>
        obtain ⟨k, v⟩ := q
        simp only [refsOkObj, Bool.and_eq_true] at ho
        simp only [readObj]
        rw [ih.1 v ho.1, ih.2.2 tl ho.2]

/-- C3: `apply_overrides` on the heap never mutates its argument: the
deep copy shields it, so after a successful call every pre-existing
heap cell is bit-for-bit unchanged, and (on a well-formed heap) the
structure and values read back at the argument's root are identical
before and after the call. -/
theorem apply_overrides_no_mutation (h : Heap) (a : Nat) (ovs : List String)
    (fuel : Nat) (h' : Heap) (b : Nat)
    (hrun : apply_overrides_heap h a ovs fuel = .ok (h', b)) :
    (∀ i, i < h.length → h'.get? i = h.get? i) ∧
    (closedHeapB h = true → a < h.length →
      ∀ f, readV h' f (.href a) = readV h f (.href a)) := by
  simp only [apply_overrides_heap] at hrun
  split at hrun
  · cases hrun
  · rename_i h1 b1 hcopy
    split at hrun
    · cases hrun
    · rename_i h2 hloop
      simp only [Except.ok.injEq, Prod.mk.injEq] at hrun
      obtain ⟨rfl, rfl⟩ := hrun
      have hc := (copy_spec h.length fuel).1 h (.href a) (h1, .href b1)
        (le_refl _) hcopy
      have hb1 : h.length ≤ b1 := by simpa [refsOkV] using hc.2.2.1
      have hgood : goodAbove h.length h := by
        intro i o hi hget
        rw [List.get?_eq_none.mpr hi] at hget
        cases hget
      have hl := applyOvLoop_frame h.length ovs h1 b1 h2 hb1 hc.1
        (hc.2.2.2 hgood) hloop
      have hframe : ∀ i, i < h.length → h2.get? i = h.get? i := fun i hi => by
        rw [hl.1 i hi, hc.2.1 i hi]
      refine ⟨hframe, ?_⟩
      intro hcl ha f
      have hclh : ∀ i o, h.get? i = some o →
          refsOkObj (fun x => decide (x < h.length)) o = true := by
        intro i o hget
        rw [closedHeapB, List.all_eq_true] at hcl
        exact hcl o (List.get?_mem hget)
      exact (read_congr h.length h h2 hframe hclh f).1 (.href a)
        (by simpa [refsOkV] using ha)
  · cases hrun

/-- Witness for C3: the heap `[{"x": 1}]` with root cell 0 and the
override list `["x=2"]`; the run succeeds, cell 0 is untouched and
reads back unchanged. -/
theorem apply_overrides_no_mutation_witness :
    (∀ i, i < 1 → ([[("x", HVal.hint 1)], [("x", HVal.hint 2)]] : Heap).get? i =
      ([[("x", HVal.hint 1)]] : Heap).get? i) ∧
    (∀ f, readV [[("x", HVal.hint 1)], [("x", HVal.hint 2)]] f (.href 0) =
      readV [[("x", HVal.hint 1)]] f (.href 0)) := by
  have h := apply_overrides_no_mutation [[("x", HVal.hint 1)]] 0 ["x=2"] 5
    [[("x", HVal.hint 1)], [("x", HVal.hint 2)]] 1 rfl
  exact ⟨fun i hi => h.1 i hi, h.2 rfl (by simp)⟩

end ExperimentKit
